import Mathlib

/-!
# genolog: the logging facade and its two adapters

A shallow embedding of `json/json_logger.go` (the logrus-backed `jsonLogger`)
and `zap/zap_logger.go` (the zap-backed `zapLogger` with its `proxyWriter`),
followed by the properties established about them.

Conventions of the embedding:
* a Go `interface{}` argument is a `Value`;
* a Go `map[string]interface{}` is an association list with pairwise distinct
  keys; a Go map has no order, so the position of an entry in the list only
  belongs to this representation: what the list says of the map is its size
  and which value each key has;
* a call into an external engine (logrus, zap, `fmt.Fprint`) is recorded as a
  value describing the call: which method, with which arguments.
-/

namespace Genolog

/-! ## Values and maps -/

/-- A Go value of type `interface{}`: the nil interface, a `string`, an `int`,
a `bool`, or a value of any other dynamic type, kept as the text that the verb
`%v` prints for it. -/
inductive Value where
  | nil
  | str (s : String)
  | int (n : Int)
  | bool (b : Bool)
  | other (text : String)
  deriving DecidableEq, Repr

/-- The text of `fmt.Sprintf("%v", x)`. -/
def Sprintv : Value → String
  | .nil => "<nil>"
  | .str s => s
  | .int n => toString n
  | .bool b => if b then "true" else "false"
  | .other text => text

/-- A Go `map[string]interface{}` (`logrus.Fields`, `zap.Config.InitialFields`). -/
abbrev GoMap := List (String × Value)

/-- The map assignment `m[k] = v`: the value of an existing key is replaced,
a new key is added. Where the new entry stands in the list has no counterpart
in the Go map. -/
def mapSet : GoMap → String → Value → GoMap
  | [], k, v => [(k, v)]
  | (k', v') :: rest, k, v =>
    if k' = k then (k, v) :: rest else (k', v') :: mapSet rest k v

/-- The map lookup `v, ok := m[k]`. -/
def mapGet : GoMap → String → Option Value
  | [], _ => none
  | (k', v') :: rest, k => if k' = k then some v' else mapGet rest k

/-- The map read `m[k]`, which is the nil interface for a missing key. -/
def mapIndex (m : GoMap) (k : String) : Value :=
  (mapGet m k).getD Value.nil

/-- The keys of a map. -/
def mapKeys (m : GoMap) : List String := m.map Prod.fst

/-! ## Byte sinks -/

/-- One byte. -/
abbrev Byte := Fin 256

/-- What a call of `Write` returns: the count `n` and the error (`none` is the
nil error). -/
structure WriteResult where
  n : Int
  err : Option String
  deriving DecidableEq, Repr

/-- A non-nil `io.Writer`: the identity of the sink behind it and the result
its `Write` gives for a byte slice. -/
structure Writer where
  id : Nat
  Write : List Byte → WriteResult

/-- What reaches a sink in one delivery: the bytes of a `Write`, or the text
that `fmt.Fprint`, `fmt.Fprintf` or `fmt.Fprintln` renders for its operands. -/
inductive Payload where
  | bytes (p : List Byte)
  | Fprint (a : List Value)
  | Fprintf (format : String) (a : List Value)
  | Fprintln (a : List Value)
  deriving DecidableEq, Repr

/-- Everything delivered so far, oldest first: the sink and what it received. -/
abbrev Trace := List (Nat × Payload)

/-- The deliveries of a trace that reached sink `id`. -/
def deliveredTo (t : Trace) (id : Nat) : List Payload :=
  (t.filter (fun d => d.1 = id)).map Prod.snd

/-- The writer `os.Stdout`: file descriptor 1, which accepts every byte. -/
def osStdout : Writer := { id := 1, Write := fun p => { n := p.length, err := none } }

/-- The writer `color.Output` of `github.com/fatih/color`, a wrapper of
standard output. -/
def colorOutput : Writer := { id := 1, Write := fun p => { n := p.length, err := none } }

/-! ## `json/json_logger.go`: the logrus adapter -/

namespace json

/-- The body of the loop
`for i := 0; i < len(args); i++ { if i%2 == 0 || i == 0 { fields[Sprintf("%v", args[i])] = nil; continue }; fields[Sprintf("%v", args[i-1])] = args[i] }`
at index `i` (always below `len(args)`). -/
def pairStep (args : List Value) (fields : GoMap) (i : Nat) : GoMap :=
  if i % 2 = 0 ∨ i = 0 then
    mapSet fields (Sprintv (args.getD i Value.nil)) Value.nil
  else
    mapSet fields (Sprintv (args.getD (i - 1) Value.nil)) (args.getD i Value.nil)

/-- The field mapping built by the loop that opens each of `Printw`, `Debugw`,
`Infow`, `Warnw`, `Errorw` and `Fatalw`: `fields := logrus.Fields{}` followed by
the loop over `i = 0, …, len(args) - 1`. -/
def pairFields (args : List Value) : GoMap :=
  (List.range args.length).foldl (pairStep args) []

/-- The logrus entry method that ends a structured call. -/
inductive EntryMethod where
  | Println | Debug | Info | Warn | Error | Fatal
  deriving DecidableEq, Repr

/-- The call `internal.WithFields(fields).M(body)` made on the engine. -/
structure EntryCall where
  engine : Nat
  fields : GoMap
  method : EntryMethod
  body : String
  deriving DecidableEq, Repr

/-- The struct `jsonLogger`; `internal` is the address of the logrus engine. -/
structure jsonLogger where
  internal : Nat
  prog : String
  context : String
  deriving DecidableEq, Repr

def jsonLogger.Printw (j : jsonLogger) (body : String) (args : List Value) : EntryCall :=
  { engine := j.internal, fields := pairFields args, method := .Println, body := body }

def jsonLogger.Debugw (j : jsonLogger) (body : String) (args : List Value) : EntryCall :=
  { engine := j.internal, fields := pairFields args, method := .Debug, body := body }

def jsonLogger.Infow (j : jsonLogger) (body : String) (args : List Value) : EntryCall :=
  { engine := j.internal, fields := pairFields args, method := .Info, body := body }

def jsonLogger.Warnw (j : jsonLogger) (body : String) (args : List Value) : EntryCall :=
  { engine := j.internal, fields := pairFields args, method := .Warn, body := body }

def jsonLogger.Errorw (j : jsonLogger) (body : String) (args : List Value) : EntryCall :=
  { engine := j.internal, fields := pairFields args, method := .Error, body := body }

def jsonLogger.Fatalw (j : jsonLogger) (body : String) (args : List Value) : EntryCall :=
  { engine := j.internal, fields := pairFields args, method := .Fatal, body := body }

/-- The six structured calls of the adapter on one argument list. -/
def structuredCalls (j : jsonLogger) (body : String) (args : List Value) : List EntryCall :=
  [j.Printw body args, j.Debugw body args, j.Infow body args,
   j.Warnw body args, j.Errorw body args, j.Fatalw body args]

end json

/-! ## `zap/zap_logger.go`: the zap adapter -/

namespace zap

/-- The struct `proxyWriter`; `writer` is `none` for the nil interface. -/
structure proxyWriter where
  writer : Option Writer := none

/-- The method `(w *proxyWriter) Write(p)`: the result returned, the proxy
afterwards and the trace afterwards. -/
def proxyWriter.Write (w : proxyWriter) (p : List Byte) (t : Trace) :
    WriteResult × proxyWriter × Trace :=
  match w.writer with
  | none => ({ n := 0, err := none }, w, t)
  | some writer => (writer.Write p, w, t ++ [(writer.id, Payload.bytes p)])

def proxyWriter.SetWriter (_w : proxyWriter) (writer : Option Writer) : proxyWriter :=
  { writer := writer }

def proxyWriter.GetWriter (w : proxyWriter) : Option Writer :=
  w.writer

/-- The struct `zapLogger`: `internal` is the address of the sugared zap
engine, `outputWriter` the state of the proxy the adapter owns. -/
structure zapLogger where
  internal : Nat
  outputWriter : proxyWriter

/-- A `zap.Field` made by `zap.Any(key, value)`. -/
structure Field where
  Key : String
  Interface : Value
  deriving DecidableEq, Repr

/-- The call `sort.Strings(keys)`: the keys in increasing order. Go compares
strings byte by byte, which on UTF-8 text is the order of the code points. -/
def sortStrings (keys : List String) : List String :=
  keys.insertionSort (fun a b => a.data ≤ b.data)

/-- The function `makeZapFields`. The order of `fieldsMap` as a list is the
order in which `range fieldsMap` happens to visit the keys. -/
def makeZapFields (fieldsMap : GoMap) : List Field :=
  let keys := fieldsMap.foldl (fun keys kv => keys ++ [kv.1]) []
  let keys := sortStrings keys
  let fs := List.replicate fieldsMap.length ({ Key := "", Interface := Value.nil } : Field)
  keys.enum.foldl
    (fun fs ik => fs.set ik.1 { Key := ik.2, Interface := mapIndex fieldsMap ik.2 }) fs

/-- The encoder chosen by the `switch logcfg.Encoding`. -/
inductive Encoder where
  | JSON | Console
  deriving DecidableEq, Repr

/-- The fields of `zap.Config` that `NewZapLogger` reads. -/
structure Config where
  Encoding : String
  InitialFields : GoMap

/-- What `NewZapLogger` builds: the adapter, the encoder of its core and the
initial fields given to the engine. -/
structure Built where
  logger : zapLogger
  encoder : Encoder
  fields : List Field

/-- The function `NewZapLogger`, with `engine` the address of the logger that
`logcfg.Build()` returns; the redirection of the standard `log` package and the
replacement of zap's global loggers are not part of the model. -/
def NewZapLogger (logcfg : Config) (engine : Nat) : Built :=
  let outputWriter : proxyWriter := {}
  let encoder :=
    if logcfg.Encoding = "json" then Encoder.JSON
    else if logcfg.Encoding = "console" then Encoder.Console
    else Encoder.JSON
  let fields := makeZapFields logcfg.InitialFields
  { logger := { internal := engine, outputWriter := outputWriter },
    encoder := encoder, fields := fields }

def zapLogger.GetWriter (z : zapLogger) : Option Writer :=
  z.outputWriter.GetWriter

def zapLogger.GetOutput (z : zapLogger) : Option Writer :=
  z.GetWriter

def zapLogger.SetOutput (z : zapLogger) (w : Option Writer) : zapLogger :=
  { z with outputWriter := z.outputWriter.SetWriter w }

def zapLogger.SetName (z : zapLogger) (_s : String) : zapLogger := z

def zapLogger.SetProg (z : zapLogger) (_s : String) : zapLogger := z

def zapLogger.SetLogLevel (z : zapLogger) (_level : String) : zapLogger := z

/-- The type assertion `str, ok := x.(string)`. -/
def assertString : Value → String × Bool
  | .str s => (s, true)
  | _ => ("", false)

/-- One round of the loop that every emission method except `Debugw` runs:
`str, ok := x.(string); if !ok { newArgs = append(newArgs, x) };
newArgs = append(newArgs, vtclean.Clean(str, false))`. -/
def stripStep (Clean : String → Bool → String) (newArgs : List Value) (x : Value) :
    List Value :=
  let (str, ok) := assertString x
  let newArgs := if !ok then newArgs ++ [x] else newArgs
  newArgs ++ [Value.str (Clean str false)]

/-- One round of the loop of `Debugw`, whose `if !ok` branch ends in `continue`. -/
def stripStepContinue (Clean : String → Bool → String) (newArgs : List Value) (x : Value) :
    List Value :=
  let (str, ok) := assertString x
  if !ok then newArgs ++ [x]
  else newArgs ++ [Value.str (Clean str false)]

/-- The loop `var newArgs []interface{}; for _, x := range args { … }` of every
emission method except `Debugw`. -/
def stripArgs (Clean : String → Bool → String) (args : List Value) : List Value :=
  args.foldl (stripStep Clean) []

/-- The loop of `Debugw`. -/
def stripArgsContinue (Clean : String → Bool → String) (args : List Value) : List Value :=
  args.foldl (stripStepContinue Clean) []

/-- The methods of `*zap.SugaredLogger` the adapter calls. -/
inductive SugarMethod where
  | Debug | Debugf | Debugw | Info | Infof | Infow | Warn | Warnf | Warnw
  | Error | Errorf | Errorw | Fatal | Fatalf | Fatalw
  deriving DecidableEq, Repr

/-- A call `internal.M(args...)`, `internal.Mf(format, args...)` or
`internal.Mw(body, args...)` made on the engine; `text` is the format or the
body, when the method takes one. -/
structure SugarCall where
  engine : Nat
  method : SugarMethod
  text : Option String
  args : List Value
  deriving DecidableEq, Repr

/-! The emission methods: each runs its loop over `args` and calls the engine. -/

def zapLogger.Print (Clean : String → Bool → String) (z : zapLogger) (args : List Value) :
    SugarCall :=
  let newArgs := stripArgs Clean args
  { engine := z.internal, method := .Info, text := none, args := newArgs }

def zapLogger.Printf (Clean : String → Bool → String) (z : zapLogger) (format : String) (args : List Value) :
    SugarCall :=
  let newArgs := stripArgs Clean args
  { engine := z.internal, method := .Infof, text := some format, args := newArgs }

def zapLogger.Println (Clean : String → Bool → String) (z : zapLogger) (args : List Value) :
    SugarCall :=
  let newArgs := stripArgs Clean args
  { engine := z.internal, method := .Info, text := none, args := newArgs }

def zapLogger.Printw (Clean : String → Bool → String) (z : zapLogger) (body : String) (args : List Value) :
    SugarCall :=
  let newArgs := stripArgs Clean args
  { engine := z.internal, method := .Infow, text := some body, args := newArgs }

def zapLogger.Debug (Clean : String → Bool → String) (z : zapLogger) (args : List Value) :
    SugarCall :=
  let newArgs := stripArgs Clean args
  { engine := z.internal, method := .Debug, text := none, args := newArgs }

def zapLogger.Debugf (Clean : String → Bool → String) (z : zapLogger) (format : String) (args : List Value) :
    SugarCall :=
  let newArgs := stripArgs Clean args
  { engine := z.internal, method := .Debugf, text := some format, args := newArgs }

def zapLogger.Debugln (Clean : String → Bool → String) (z : zapLogger) (args : List Value) :
    SugarCall :=
  let newArgs := stripArgs Clean args
  { engine := z.internal, method := .Debug, text := none, args := newArgs }

def zapLogger.Debugw (Clean : String → Bool → String) (z : zapLogger) (body : String) (args : List Value) :
    SugarCall :=
  let newArgs := stripArgsContinue Clean args
  { engine := z.internal, method := .Debugw, text := some body, args := newArgs }

def zapLogger.Info (Clean : String → Bool → String) (z : zapLogger) (args : List Value) :
    SugarCall :=
  let newArgs := stripArgs Clean args
  { engine := z.internal, method := .Info, text := none, args := newArgs }

def zapLogger.Infof (Clean : String → Bool → String) (z : zapLogger) (format : String) (args : List Value) :
    SugarCall :=
  let newArgs := stripArgs Clean args
  { engine := z.internal, method := .Infof, text := some format, args := newArgs }

def zapLogger.Infoln (Clean : String → Bool → String) (z : zapLogger) (args : List Value) :
    SugarCall :=
  let newArgs := stripArgs Clean args
  { engine := z.internal, method := .Info, text := none, args := newArgs }

def zapLogger.Infow (Clean : String → Bool → String) (z : zapLogger) (body : String) (args : List Value) :
    SugarCall :=
  let newArgs := stripArgs Clean args
  { engine := z.internal, method := .Infow, text := some body, args := newArgs }

def zapLogger.Warn (Clean : String → Bool → String) (z : zapLogger) (args : List Value) :
    SugarCall :=
  let newArgs := stripArgs Clean args
  { engine := z.internal, method := .Warn, text := none, args := newArgs }

def zapLogger.Warnf (Clean : String → Bool → String) (z : zapLogger) (format : String) (args : List Value) :
    SugarCall :=
  let newArgs := stripArgs Clean args
  { engine := z.internal, method := .Warnf, text := some format, args := newArgs }

def zapLogger.Warnln (Clean : String → Bool → String) (z : zapLogger) (args : List Value) :
    SugarCall :=
  let newArgs := stripArgs Clean args
  { engine := z.internal, method := .Warn, text := none, args := newArgs }

def zapLogger.Warnw (Clean : String → Bool → String) (z : zapLogger) (body : String) (args : List Value) :
    SugarCall :=
  let newArgs := stripArgs Clean args
  { engine := z.internal, method := .Warnw, text := some body, args := newArgs }

def zapLogger.Error (Clean : String → Bool → String) (z : zapLogger) (args : List Value) :
    SugarCall :=
  let newArgs := stripArgs Clean args
  { engine := z.internal, method := .Error, text := none, args := newArgs }

def zapLogger.Errorf (Clean : String → Bool → String) (z : zapLogger) (format : String) (args : List Value) :
    SugarCall :=
  let newArgs := stripArgs Clean args
  { engine := z.internal, method := .Errorf, text := some format, args := newArgs }

def zapLogger.Errorln (Clean : String → Bool → String) (z : zapLogger) (args : List Value) :
    SugarCall :=
  let newArgs := stripArgs Clean args
  { engine := z.internal, method := .Error, text := none, args := newArgs }

def zapLogger.Errorw (Clean : String → Bool → String) (z : zapLogger) (body : String) (args : List Value) :
    SugarCall :=
  let newArgs := stripArgs Clean args
  { engine := z.internal, method := .Errorw, text := some body, args := newArgs }

def zapLogger.Fatal (Clean : String → Bool → String) (z : zapLogger) (args : List Value) :
    SugarCall :=
  let newArgs := stripArgs Clean args
  { engine := z.internal, method := .Fatal, text := none, args := newArgs }

def zapLogger.Fatalf (Clean : String → Bool → String) (z : zapLogger) (format : String) (args : List Value) :
    SugarCall :=
  let newArgs := stripArgs Clean args
  { engine := z.internal, method := .Fatalf, text := some format, args := newArgs }

def zapLogger.Fatalln (Clean : String → Bool → String) (z : zapLogger) (args : List Value) :
    SugarCall :=
  let newArgs := stripArgs Clean args
  { engine := z.internal, method := .Fatal, text := none, args := newArgs }

def zapLogger.Fatalw (Clean : String → Bool → String) (z : zapLogger) (body : String) (args : List Value) :
    SugarCall :=
  let newArgs := stripArgs Clean args
  { engine := z.internal, method := .Fatalw, text := some body, args := newArgs }

/-- The method `Raw`: `fmt.Fprint(os.Stdout, newArgs...)`, given the deliveries
made so far. -/
def zapLogger.Raw (Clean : String → Bool → String) (_z : zapLogger) (args : List Value)
    (t : Trace) : Trace :=
  let newArgs := stripArgs Clean args
  t ++ [(osStdout.id, Payload.Fprint newArgs)]

/-- The method `Rawf`: `fmt.Fprintf(os.Stdout, format, newArgs...)`. -/
def zapLogger.Rawf (Clean : String → Bool → String) (_z : zapLogger) (format : String)
    (args : List Value) (t : Trace) : Trace :=
  let newArgs := stripArgs Clean args
  t ++ [(osStdout.id, Payload.Fprintf format newArgs)]

/-- The method `Rawln`: `fmt.Fprintln(os.Stdout, newArgs...)`. -/
def zapLogger.Rawln (Clean : String → Bool → String) (_z : zapLogger) (args : List Value)
    (t : Trace) : Trace :=
  let newArgs := stripArgs Clean args
  t ++ [(osStdout.id, Payload.Fprintln newArgs)]

end zap

/-! ## `json/json_logger.go`: construction and level control -/

namespace json

/-- The levels of logrus, in the order of `logrus.Level`. -/
inductive Level where
  | PanicLevel | FatalLevel | ErrorLevel | WarnLevel | InfoLevel | DebugLevel | TraceLevel
  deriving DecidableEq, Repr

/-- The formatter of a logrus engine. -/
inductive Formatter where
  | TextFormatter | JSONFormatter
  deriving DecidableEq, Repr

/-- The state of one `logrus.Logger`: the fields the adapter reads or writes.
`Out` is the identity of the sink. -/
structure LogrusLogger where
  Out : Nat
  Formatter : Formatter
  Level : Level
  deriving DecidableEq, Repr

/-- An object behind a `genolog.Logger` interface value: a `*jsonLogger`, or a
`*zapLogger` (kept by the address of its engine). -/
inductive LoggerObj where
  | json (j : jsonLogger)
  | zap (engine : Nat)
  deriving DecidableEq, Repr

/-- The memory the package works on: the logrus engines and the logger objects
allocated so far, each addressed by its position, and the package variable
`global`. -/
structure Heap where
  engines : List LogrusLogger
  loggers : List LoggerObj
  global : Option Nat
  deriving DecidableEq, Repr

def defaultProg : String := "APP"

def startName : String := "cli"

def defaultLevel : Level := Level.InfoLevel

/-- The method `(j *jsonLogger) SetName`. -/
def jsonLogger.SetName (j : jsonLogger) (s : String) : jsonLogger :=
  { j with context := s }

/-- The method `(j *jsonLogger) SetProg`. -/
def jsonLogger.SetProg (j : jsonLogger) (s : String) : jsonLogger :=
  { j with prog := s }

/-- The interface call `existing.SetName(s)` on the object at address `a`:
`jsonLogger.SetName` for a `*jsonLogger`, the empty `zapLogger.SetName` for a
`*zapLogger`. -/
def LoggerSetName (a : Nat) (s : String) (h : Heap) : Heap :=
  match h.loggers[a]? with
  | some (.json j) => { h with loggers := h.loggers.set a (.json (j.SetName s)) }
  | some (.zap _) => h
  | none => h

/-- The interface call `existing.SetProg(s)` on the object at address `a`. -/
def LoggerSetProg (a : Nat) (s : String) (h : Heap) : Heap :=
  match h.loggers[a]? with
  | some (.json j) => { h with loggers := h.loggers.set a (.json (j.SetProg s)) }
  | some (.zap _) => h
  | none => h

/-- The function `NewJSONLogger`; `existing` is `none` for the nil interface and
otherwise the address of a logger object. It returns the address of the logger
it hands back and the memory afterwards. -/
def NewJSONLogger (prog name : String) (existing : Option Nat) (h : Heap) : Nat × Heap :=
  let prog := if prog = "" then defaultProg else prog
  let name := if name = "" then startName else name
  match existing with
  | some e =>
    let h := LoggerSetName e name h
    let h := LoggerSetProg e prog h
    (e, h)
  | none =>
    let gh : Nat × Heap :=
      match h.global with
      | some g => (g, h)
      | none =>
        let g := h.engines.length
        (g, { h with
              engines := h.engines ++
                [{ Out := colorOutput.id, Formatter := Formatter.TextFormatter,
                   Level := defaultLevel }],
              global := some g })
    let g := gh.1
    let h := gh.2
    let logger := h.loggers.length
    let h : Heap :=
      { h with loggers :=
          h.loggers ++ [LoggerObj.json { internal := g, prog := prog, context := name }] }
    let h : Heap :=
      match h.engines[g]? with
      | some eng =>
        { h with engines := h.engines.set g { eng with Formatter := Formatter.JSONFormatter } }
      | none => h
    (logger, h)

/-- The rune mapping of `strings.ToLower`: an ASCII letter `A`–`Z` becomes the
letter `a`–`z`, any other ASCII rune is kept, and a rune outside ASCII is
mapped by the Unicode table `unicodeToLower`. -/
def toLowerRune (unicodeToLower : Char → Char) (c : Char) : Char :=
  if c.toNat < 128 then c.toLower else unicodeToLower c

/-- The function `strings.ToLower` on a valid UTF-8 string. -/
def ToLower (unicodeToLower : Char → Char) (s : String) : String :=
  String.mk (s.data.map (toLowerRune unicodeToLower))

/-- The call `internal.SetLevel(l)` on the engine at address `a`. -/
def SetLevel (a : Nat) (l : Level) (h : Heap) : Heap :=
  match h.engines[a]? with
  | some eng => { h with engines := h.engines.set a { eng with Level := l } }
  | none => h

/-- The method `(j *jsonLogger) SetLogLevel`. -/
def jsonLogger.SetLogLevel (unicodeToLower : Char → Char) (j : jsonLogger) (level : String)
    (h : Heap) : Heap :=
  let l := ToLower unicodeToLower level
  if l = "debug" then SetLevel j.internal Level.DebugLevel h
  else if l = "info" then SetLevel j.internal Level.InfoLevel h
  else if l = "warn" then SetLevel j.internal Level.WarnLevel h
  else if l = "error" then SetLevel j.internal Level.ErrorLevel h
  else if l = "fatal" then SetLevel j.internal Level.FatalLevel h
  else h

/-- The level of the engine at address `a`. -/
def levelOf (h : Heap) (a : Nat) : Option Level :=
  (h.engines[a]?).map (fun eng => eng.Level)

/-- The loop of `pairFields` read two arguments at a time, starting from the
mapping `m`: a key and its value, or a last key alone. -/
def pairList : GoMap → List Value → GoMap
  | m, [] => m
  | m, [k] => mapSet m (Sprintv k) Value.nil
  | m, k :: v :: rest =>
    pairList (mapSet (mapSet m (Sprintv k) Value.nil) (Sprintv k) v) rest

/-- The pairs an argument list spells out, in order: each key text with the
argument that follows it, a last lone key with the nil value. -/
def pairsOf : List Value → GoMap
  | [] => []
  | [k] => [(Sprintv k, Value.nil)]
  | k :: v :: rest => (Sprintv k, v) :: pairsOf rest

end json

/-! ## Lemmas on maps -/

theorem mapGet_mapSet (m : GoMap) (k k' : String) (v : Value) :
    mapGet (mapSet m k v) k' = if k = k' then some v else mapGet m k' := by
  induction m with
  | nil => simp [mapSet, mapGet]
  | cons kv rest ih =>
    obtain ⟨a, b⟩ := kv
    by_cases h : a = k
    · subst h
      by_cases h2 : a = k' <;> simp [mapSet, mapGet, h2]
    · by_cases h2 : a = k'
      · subst h2
        have h3 : ¬ k = a := fun e => h e.symm
        simp [mapSet, mapGet, h, h3]
      · simp [mapSet, mapGet, h, h2, ih]

theorem mapSet_mapSet (m : GoMap) (k : String) (u v : Value) :
    mapSet (mapSet m k u) k v = mapSet m k v := by
  induction m with
  | nil => simp [mapSet]
  | cons kv rest ih =>
    obtain ⟨a, b⟩ := kv
    by_cases h : a = k
    · simp [mapSet, h]
    · simp [mapSet, h, ih]

theorem mem_mapKeys_mapSet (m : GoMap) (k s : String) (v : Value) :
    s ∈ mapKeys (mapSet m k v) ↔ s = k ∨ s ∈ mapKeys m := by
  induction m with
  | nil => simp [mapSet, mapKeys]
  | cons kv rest ih =>
    obtain ⟨a, b⟩ := kv
    simp only [mapKeys] at ih
    by_cases h : a = k
    · subst h
      simp [mapSet, mapKeys]
    · simp only [mapSet, h, if_false, mapKeys, List.map_cons, List.mem_cons, ih]
      tauto

theorem mapSet_of_not_mem (m : GoMap) (k : String) (v : Value) (h : k ∉ mapKeys m) :
    mapSet m k v = m ++ [(k, v)] := by
  induction m with
  | nil => simp [mapSet]
  | cons kv rest ih =>
    obtain ⟨a, b⟩ := kv
    simp only [mapKeys, List.map_cons, List.mem_cons, not_or] at h
    have h1 : ¬ a = k := fun e => h.1 e.symm
    simp only [mapSet, h1, if_false, List.cons_append]
    rw [ih h.2]

theorem mapGet_isSome_iff (m : GoMap) (s : String) :
    (mapGet m s).isSome ↔ s ∈ mapKeys m := by
  induction m with
  | nil => simp [mapGet, mapKeys]
  | cons kv rest ih =>
    obtain ⟨a, b⟩ := kv
    simp only [mapKeys] at ih
    by_cases h : a = s
    · simp [mapGet, mapKeys, h]
    · have h1 : ¬ s = a := fun e => h e.symm
      simp [mapGet, mapKeys, h, h1, ih]

/-! ## The pairing loop of the logrus adapter -/

namespace json

theorem pairList_cons_cons (m : GoMap) (k v : Value) (rest : List Value) :
    pairList m (k :: v :: rest) = pairList (mapSet m (Sprintv k) v) rest := by
  rw [pairList, mapSet_mapSet]

theorem getD_append_add (pre rest : List Value) (i : Nat) :
    (pre ++ rest).getD (pre.length + i) Value.nil = rest.getD i Value.nil := by
  induction pre with
  | nil => simp
  | cons a pre ih =>
    have e : (a :: pre).length + i = (pre.length + i) + 1 := by simp; omega
    rw [e, List.cons_append, List.getD_cons_succ, ih]

theorem foldl_pairStep (rest : List Value) :
    ∀ (pre : List Value) (m : GoMap), pre.length % 2 = 0 →
      (List.range' pre.length rest.length).foldl (pairStep (pre ++ rest)) m
        = pairList m rest := by
  induction rest using pairsOf.induct with
  | case1 => intro pre m _; simp [pairList]
  | case2 k =>
    intro pre m hpre
    simp [pairList, pairStep, hpre, List.range']
  | case3 k v rest ih =>
    intro pre m hpre
    have h1 : (pre.length + 1) % 2 ≠ 0 := by omega
    have h2 : (pre ++ [k, v]).length % 2 = 0 := by simp; omega
    have ih' := ih (pre ++ [k, v]) (mapSet (mapSet m (Sprintv k) Value.nil) (Sprintv k) v) h2
    simp only [List.length_append, List.length_cons, List.length_nil, List.append_assoc,
      List.cons_append, List.nil_append] at ih'
    simp only [List.length_cons, List.range', List.foldl_cons]
    rw [pairList, ← ih']
    congr 1
    have e0 : (pre ++ k :: v :: rest).getD pre.length Value.nil = k := by
      have e := getD_append_add pre (k :: v :: rest) 0
      simpa only [Nat.add_zero, List.getD_cons_zero] using e
    have e1 : (pre ++ k :: v :: rest).getD (pre.length + 1) Value.nil = v := by
      have e := getD_append_add pre (k :: v :: rest) 1
      simpa only [List.getD_cons_succ, List.getD_cons_zero] using e
    have h3 : ¬ (pre.length + 1 = 0) := by omega
    simp only [pairStep, hpre, h1, h3, true_or, or_self, if_true, if_false,
      Nat.add_sub_cancel, e0, e1]

theorem pairFields_eq_pairList (args : List Value) : pairFields args = pairList [] args := by
  have h := foldl_pairStep args [] [] (by simp)
  simpa [pairFields, List.range_eq_range'] using h

theorem pairList_eq_append (rest : List Value) :
    ∀ m : GoMap, (mapKeys (m ++ pairsOf rest)).Nodup → pairList m rest = m ++ pairsOf rest := by
  induction rest using pairsOf.induct with
  | case1 => intro m _; simp [pairList, pairsOf]
  | case2 k =>
    intro m h
    simp only [pairsOf, mapKeys, List.map_append, List.map_cons, List.map_nil] at h
    have hk : Sprintv k ∉ mapKeys m := by
      intro hmem
      exact (List.disjoint_of_nodup_append h) hmem (List.mem_singleton_self _)
    simp only [pairList, pairsOf]
    exact mapSet_of_not_mem m _ _ hk
  | case3 k v rest ih =>
    intro m h
    have h' : (mapKeys ((m ++ [(Sprintv k, v)]) ++ pairsOf rest)).Nodup := by
      simpa [pairsOf] using h
    have hk : Sprintv k ∉ mapKeys m := by
      intro hmem
      simp only [pairsOf, mapKeys, List.map_append, List.map_cons] at h
      exact (List.disjoint_of_nodup_append h) hmem (List.mem_cons_self _ _)
    rw [pairList_cons_cons, mapSet_of_not_mem m _ _ hk, ih _ h']
    simp [pairsOf]

theorem pairsOf_length (args : List Value) : (pairsOf args).length = (args.length + 1) / 2 := by
  induction args using pairsOf.induct with
  | case1 => simp [pairsOf]
  | case2 k => simp [pairsOf]
  | case3 k v rest ih =>
    simp only [pairsOf, List.length_cons, ih]
    omega

theorem pairsOf_getElem? (args : List Value) :
    ∀ k : Nat, 2 * k < args.length →
      (pairsOf args)[k]? =
        some (Sprintv (args.getD (2 * k) Value.nil), args.getD (2 * k + 1) Value.nil) := by
  induction args using pairsOf.induct with
  | case1 => intro k h; simp at h
  | case2 a =>
    intro k h
    have hk : k = 0 := by simp at h; omega
    subst hk
    simp [pairsOf]
  | case3 a v rest ih =>
    intro k h
    cases k with
    | zero => simp [pairsOf]
    | succ k =>
      have h' : 2 * k < rest.length := by simp at h; omega
      have e1 : 2 * (k + 1) = (2 * k + 1) + 1 := by omega
      have e2 : 2 * (k + 1) + 1 = (2 * k + 1 + 1) + 1 := by omega
      rw [e2, e1]
      simp only [pairsOf, List.getElem?_cons_succ, List.getD_cons_succ]
      exact ih k h'

theorem pairsOf_keys_nodup (args : List Value)
    (hkeys : ∀ i k : Nat, i < k → 2 * k < args.length →
      Sprintv (args.getD (2 * i) Value.nil) ≠ Sprintv (args.getD (2 * k) Value.nil)) :
    (mapKeys (pairsOf args)).Nodup := by
  rw [List.nodup_iff_getElem?_ne_getElem?]
  intro i k hik hk
  have hk' : 2 * k < args.length := by
    simp only [mapKeys, List.length_map, pairsOf_length] at hk
    omega
  have hi' : 2 * i < args.length := by omega
  simp only [mapKeys, List.getElem?_map, pairsOf_getElem? args i hi',
    pairsOf_getElem? args k hk', Option.map_some']
  intro e
  exact hkeys i k hik hk' (Option.some.inj e)

theorem pairFields_eq_pairsOf (args : List Value)
    (hkeys : ∀ i k : Nat, i < k → 2 * k < args.length →
      Sprintv (args.getD (2 * i) Value.nil) ≠ Sprintv (args.getD (2 * k) Value.nil)) :
    pairFields args = pairsOf args := by
  rw [pairFields_eq_pairList]
  have h := pairList_eq_append args [] (by simpa using pairsOf_keys_nodup args hkeys)
  simpa using h

theorem fields_of_structuredCalls (j : jsonLogger) (body : String) (args : List Value)
    (c : EntryCall) (hc : c ∈ structuredCalls j body args) : c.fields = pairFields args := by
  simp only [structuredCalls, List.mem_cons, List.mem_singleton, List.mem_nil_iff,
    or_false] at hc
  rcases hc with h | h | h | h | h | h <;> subst h <;> rfl

theorem mem_mapKeys_pairList (rest : List Value) :
    ∀ (m : GoMap) (s : String), s ∈ mapKeys (pairList m rest) ↔
      s ∈ mapKeys m ∨ ∃ i, i < rest.length ∧ i % 2 = 0 ∧ Sprintv (rest.getD i Value.nil) = s := by
  induction rest using pairsOf.induct with
  | case1 => intro m s; simp [pairList]
  | case2 k =>
    intro m s
    simp only [pairList, mem_mapKeys_mapSet, List.length_singleton]
    constructor
    · rintro (h | h)
      · exact Or.inr ⟨0, by omega, rfl, by simpa using h.symm⟩
      · exact Or.inl h
    · rintro (h | ⟨i, hi, _, hs⟩)
      · exact Or.inr h
      · have : i = 0 := by omega
        subst this
        exact Or.inl (by simpa using hs.symm)
  | case3 k v rest ih =>
    intro m s
    rw [pairList_cons_cons, ih, mem_mapKeys_mapSet]
    constructor
    · rintro ((h | h) | ⟨i, hi, hev, hs⟩)
      · exact Or.inr ⟨0, by simp, rfl, by simpa using h.symm⟩
      · exact Or.inl h
      · refine Or.inr ⟨i + 2, by simp; omega, by omega, ?_⟩
        simpa [List.getD_cons_succ] using hs
    · rintro (h | ⟨i, hi, hev, hs⟩)
      · exact Or.inl (Or.inr h)
      · match i, hi, hev, hs with
        | 0, _, _, hs => exact Or.inl (Or.inl (by simpa using hs.symm))
        | 1, _, hev, _ => omega
        | i + 2, hi, hev, hs =>
          refine Or.inr ⟨i, by simp at hi; omega, by omega, ?_⟩
          simpa [List.getD_cons_succ] using hs

theorem mapGet_pairList_of_absent (rest : List Value) :
    ∀ (m : GoMap) (s : String),
      (∀ i, i < rest.length → i % 2 = 0 → Sprintv (rest.getD i Value.nil) ≠ s) →
      mapGet (pairList m rest) s = mapGet m s := by
  induction rest using pairsOf.induct with
  | case1 => intro m s _; simp [pairList]
  | case2 k =>
    intro m s h
    have h0 : Sprintv k ≠ s := by simpa using h 0 (by simp) rfl
    simp [pairList, mapGet_mapSet, h0]
  | case3 k v rest ih =>
    intro m s h
    have h0 : Sprintv k ≠ s := by simpa using h 0 (by simp) rfl
    have hrest : ∀ i, i < rest.length → i % 2 = 0 → Sprintv (rest.getD i Value.nil) ≠ s := by
      intro i hi hev
      have := h (i + 2) (by simp; omega) (by omega)
      simpa [List.getD_cons_succ] using this
    rw [pairList_cons_cons, ih _ _ hrest, mapGet_mapSet]
    simp [h0]

theorem mapGet_pairList_of_last (rest : List Value) :
    ∀ (m : GoMap) (s : String) (i : Nat), i < rest.length → i % 2 = 0 →
      Sprintv (rest.getD i Value.nil) = s →
      (∀ i', i < i' → i' < rest.length → i' % 2 = 0 → Sprintv (rest.getD i' Value.nil) ≠ s) →
      mapGet (pairList m rest) s =
        some (if i + 1 < rest.length then rest.getD (i + 1) Value.nil else Value.nil) := by
  induction rest using pairsOf.induct with
  | case1 => intro m s i hi; simp at hi
  | case2 k =>
    intro m s i hi _ hs _
    have : i = 0 := by simp at hi; omega
    subst this
    have h0 : Sprintv k = s := by simpa using hs
    simp [pairList, mapGet_mapSet, h0]
  | case3 k v rest ih =>
    intro m s i hi hev hs hlast
    match i, hi, hev, hs, hlast with
    | 0, _, _, hs, hlast =>
      have h0 : Sprintv k = s := by simpa using hs
      have hrest : ∀ i, i < rest.length → i % 2 = 0 → Sprintv (rest.getD i Value.nil) ≠ s := by
        intro i hi hev
        have := hlast (i + 2) (by omega) (by simp; omega) (by omega)
        simpa [List.getD_cons_succ] using this
      rw [pairList_cons_cons, mapGet_pairList_of_absent rest _ _ hrest, mapGet_mapSet]
      simp [h0]
    | 1, _, hev, _, _ => omega
    | i + 2, hi, hev, hs, hlast =>
      have hi' : i < rest.length := by simp at hi; omega
      have hs' : Sprintv (rest.getD i Value.nil) = s := by
        simpa [List.getD_cons_succ] using hs
      have hlast' : ∀ i', i < i' → i' < rest.length → i' % 2 = 0 →
          Sprintv (rest.getD i' Value.nil) ≠ s := by
        intro i' h1 h2 h3
        have := hlast (i' + 2) (by omega) (by simp; omega) (by omega)
        simpa [List.getD_cons_succ] using this
      rw [pairList_cons_cons, ih _ s i hi' (by omega) hs' hlast']
      have e : i + 2 + 1 = (i + 1) + 1 + 1 := by omega
      simp only [List.length_cons, e, List.getD_cons_succ, Nat.add_lt_add_iff_right]

/-! ### Even argument lists -/

/-- C1, as stated, fails: the even-length list `"a", 1, "a", 2` (n = 2) gives
`Infow` a field mapping with the single pair `a ↦ 2`, not two pairs. -/
theorem C1_repeated_key_counterexample :
    [Value.str "a", Value.int 1, Value.str "a", Value.int 2].length = 2 * 2 ∧
    (jsonLogger.Infow { internal := 0, prog := "APP", context := "cli" } "m"
        [Value.str "a", Value.int 1, Value.str "a", Value.int 2]).fields
      = [("a", Value.int 2)] ∧
    (jsonLogger.Infow { internal := 0, prog := "APP", context := "cli" } "m"
        [Value.str "a", Value.int 1, Value.str "a", Value.int 2]).fields.length ≠ 2 := by
  decide

/-- C1, amended: for an argument list of even length 2n whose key positions
stringify to pairwise different texts, the field mapping of each structured
call (`Printw`, `Debugw`, `Infow`, `Warnw`, `Errorw`, `Fatalw`) has exactly n
entries under n different keys, its keys are the `%v` texts of the arguments
`args[2k]`, k < n, and the key of `args[2k]` maps to the value `args[2k+1]`,
unmodified. Nothing is said about an order of the entries: the mapping is a Go
map. -/
theorem C1_even_args_pairs (j : jsonLogger) (body : String) (args : List Value) (n : Nat)
    (hlen : args.length = 2 * n)
    (hkeys : ∀ i k : Nat, i < k → k < n →
      Sprintv (args.getD (2 * i) Value.nil) ≠ Sprintv (args.getD (2 * k) Value.nil)) :
    ∀ c ∈ structuredCalls j body args,
      c.fields.length = n ∧
      (mapKeys c.fields).Nodup ∧
      (∀ k : Nat, k < n →
        mapGet c.fields (Sprintv (args.getD (2 * k) Value.nil))
          = some (args.getD (2 * k + 1) Value.nil)) ∧
      (∀ s : String, s ∈ mapKeys c.fields ↔
        ∃ k : Nat, k < n ∧ Sprintv (args.getD (2 * k) Value.nil) = s) := by
  intro c hc
  have hk : ∀ i k : Nat, i < k → 2 * k < args.length →
      Sprintv (args.getD (2 * i) Value.nil) ≠ Sprintv (args.getD (2 * k) Value.nil) :=
    fun i k hik h => hkeys i k hik (by omega)
  have hfields := fields_of_structuredCalls j body args c hc
  refine ⟨?_, ?_, ?_, ?_⟩
  · rw [hfields, pairFields_eq_pairsOf args hk, pairsOf_length]
    omega
  · rw [hfields, pairFields_eq_pairsOf args hk]
    exact pairsOf_keys_nodup args hk
  · intro k hkn
    rw [hfields, pairFields_eq_pairList]
    have hlast : ∀ i', 2 * k < i' → i' < args.length → i' % 2 = 0 →
        Sprintv (args.getD i' Value.nil) ≠ Sprintv (args.getD (2 * k) Value.nil) := by
      intro i' h1 h2 h3
      have e : i' = 2 * (i' / 2) := by omega
      rw [e]
      exact fun heq => hkeys k (i' / 2) (by omega) (by omega) heq.symm
    have h := mapGet_pairList_of_last args [] _ (2 * k) (by omega) (by omega) rfl hlast
    have hlt : 2 * k + 1 < args.length := by omega
    rw [h, if_pos hlt]
  · intro s
    rw [hfields, pairFields_eq_pairList, mem_mapKeys_pairList]
    constructor
    · rintro (h | ⟨i, hi, hev, hs⟩)
      · simp [mapKeys] at h
      · refine ⟨i / 2, by omega, ?_⟩
        have e : 2 * (i / 2) = i := by omega
        rw [e]
        exact hs
    · rintro ⟨k, hkn, hs⟩
      exact Or.inr ⟨2 * k, by omega, by omega, hs⟩

/-- C1, amended, at the arguments `"user", 7, "ok", true`: the mapping of
`Infow` has two entries, `user` maps to 7 and `ok` maps to true. -/
theorem C1_even_args_pairs_witness :
    (jsonLogger.Infow { internal := 0, prog := "APP", context := "cli" } "m"
        [Value.str "user", Value.int 7, Value.str "ok", Value.bool true]).fields.length = 2 ∧
    mapGet (jsonLogger.Infow { internal := 0, prog := "APP", context := "cli" } "m"
        [Value.str "user", Value.int 7, Value.str "ok", Value.bool true]).fields "user"
      = some (Value.int 7) ∧
    mapGet (jsonLogger.Infow { internal := 0, prog := "APP", context := "cli" } "m"
        [Value.str "user", Value.int 7, Value.str "ok", Value.bool true]).fields "ok"
      = some (Value.bool true) :=
  have r := C1_even_args_pairs { internal := 0, prog := "APP", context := "cli" } "m"
    [Value.str "user", Value.int 7, Value.str "ok", Value.bool true] 2 (by decide)
    (by
      intro i k hik hk
      have h1 : k = 1 := by omega
      have h0 : i = 0 := by omega
      subst h1 h0
      decide)
    (jsonLogger.Infow { internal := 0, prog := "APP", context := "cli" } "m"
      [Value.str "user", Value.int 7, Value.str "ok", Value.bool true])
    (by simp [structuredCalls])
  ⟨r.1, r.2.2.1 0 (by decide), r.2.2.1 1 (by decide)⟩

/-! ### Odd argument lists -/

/-- C2, as stated, fails: for the odd-length list `"a", 1, "a"` (n = 1) the
mapping of `Infow` is the single pair `a ↦ nil`; the pair `a ↦ 1` is not in it. -/
theorem C2_repeated_key_counterexample :
    [Value.str "a", Value.int 1, Value.str "a"].length = 2 * 1 + 1 ∧
    (jsonLogger.Infow { internal := 0, prog := "APP", context := "cli" } "m"
        [Value.str "a", Value.int 1, Value.str "a"]).fields = [("a", Value.nil)] ∧
    mapGet (jsonLogger.Infow { internal := 0, prog := "APP", context := "cli" } "m"
        [Value.str "a", Value.int 1, Value.str "a"]).fields "a" ≠ some (Value.int 1) := by
  decide

/-- C2, amended: for an argument list of odd length 2n+1 whose key positions
stringify to pairwise different texts, the field mapping of each structured
call is the list of pairs the arguments spell out: it has n+1 pairs, the k-th
(k < n) is the `%v` text of `args[2k]` with the value `args[2k+1]`, and the
last is the `%v` text of `args[2n]` with the nil value. -/
theorem C2_odd_args_pairs (j : jsonLogger) (body : String) (args : List Value) (n : Nat)
    (hlen : args.length = 2 * n + 1)
    (hkeys : ∀ i k : Nat, i < k → k ≤ n →
      Sprintv (args.getD (2 * i) Value.nil) ≠ Sprintv (args.getD (2 * k) Value.nil)) :
    ∀ c ∈ structuredCalls j body args,
      c.fields = pairsOf args ∧
      c.fields.length = n + 1 ∧
      (∀ k : Nat, k < n →
        c.fields[k]? =
          some (Sprintv (args.getD (2 * k) Value.nil), args.getD (2 * k + 1) Value.nil)) ∧
      c.fields[n]? = some (Sprintv (args.getD (2 * n) Value.nil), Value.nil) := by
  intro c hc
  have hk : ∀ i k : Nat, i < k → 2 * k < args.length →
      Sprintv (args.getD (2 * i) Value.nil) ≠ Sprintv (args.getD (2 * k) Value.nil) :=
    fun i k hik h => hkeys i k hik (by omega)
  rw [fields_of_structuredCalls j body args c hc, pairFields_eq_pairsOf args hk]
  refine ⟨rfl, by rw [pairsOf_length]; omega, ?_, ?_⟩
  · intro k hkn
    exact pairsOf_getElem? args k (by omega)
  · have h := pairsOf_getElem? args n (by omega)
    have hnil : args.getD (2 * n + 1) Value.nil = Value.nil := by
      rw [List.getD_eq_default]
      omega
    rw [h, hnil]

/-- C2, amended, at the scenario of the specification: the arguments
`"method", "GET", "path"` give `Infow` exactly the mapping
`method ↦ "GET"`, `path ↦ nil`. -/
theorem C2_odd_args_pairs_witness :
    (jsonLogger.Infow { internal := 0, prog := "APP", context := "cli" } "request"
        [Value.str "method", Value.str "GET", Value.str "path"]).fields
      = [("method", Value.str "GET"), ("path", Value.nil)] :=
  (C2_odd_args_pairs { internal := 0, prog := "APP", context := "cli" } "request"
    [Value.str "method", Value.str "GET", Value.str "path"] 1 (by decide)
    (by
      intro i k hik hk
      have h1 : k = 1 := by omega
      have h0 : i = 0 := by omega
      subst h1 h0
      decide)
    _ (by simp [structuredCalls])).1

/-! ### Repeated keys -/

/-- C3: for every argument list, the keys of the field mapping of each
structured call are exactly the `%v` texts of the arguments at even positions,
and a key `s` whose last even position is `i` maps to `args[i+1]` when that
argument exists and to nil when `i` is the last index. -/
theorem C3_last_write_wins (j : jsonLogger) (body : String) (args : List Value) :
    ∀ c ∈ structuredCalls j body args,
      (∀ s : String, s ∈ mapKeys c.fields ↔
        ∃ i, i < args.length ∧ i % 2 = 0 ∧ Sprintv (args.getD i Value.nil) = s) ∧
      (∀ (s : String) (i : Nat), i < args.length → i % 2 = 0 →
        Sprintv (args.getD i Value.nil) = s →
        (∀ i', i < i' → i' < args.length → i' % 2 = 0 →
          Sprintv (args.getD i' Value.nil) ≠ s) →
        mapGet c.fields s =
          some (if i + 1 < args.length then args.getD (i + 1) Value.nil else Value.nil)) := by
  intro c hc
  rw [fields_of_structuredCalls j body args c hc, pairFields_eq_pairList]
  refine ⟨?_, ?_⟩
  · intro s
    rw [mem_mapKeys_pairList]
    simp [mapKeys]
  · intro s i hi hev hs hlast
    exact mapGet_pairList_of_last args [] s i hi hev hs hlast

/-- C3 at the arguments `"a", 1, "b", 2, "a"`: the lone last key `a` repeats
the first key, and `Errorw` maps `a` to nil and `b` to 2. -/
theorem C3_last_write_wins_witness :
    mapGet (jsonLogger.Errorw { internal := 0, prog := "APP", context := "cli" } "m"
        [Value.str "a", Value.int 1, Value.str "b", Value.int 2, Value.str "a"]).fields "a"
      = some Value.nil ∧
    mapGet (jsonLogger.Errorw { internal := 0, prog := "APP", context := "cli" } "m"
        [Value.str "a", Value.int 1, Value.str "b", Value.int 2, Value.str "a"]).fields "b"
      = some (Value.int 2) :=
  ⟨(C3_last_write_wins { internal := 0, prog := "APP", context := "cli" } "m"
      [Value.str "a", Value.int 1, Value.str "b", Value.int 2, Value.str "a"]
      _ (by simp [structuredCalls])).2 "a" 4 (by decide) (by decide) (by decide)
      (by intro i' h1 h2; simp at h2; omega),
   (C3_last_write_wins { internal := 0, prog := "APP", context := "cli" } "m"
      [Value.str "a", Value.int 1, Value.str "b", Value.int 2, Value.str "a"]
      _ (by simp [structuredCalls])).2 "b" 2 (by decide) (by decide) (by decide)
      (by
        intro i' h1 h2 h3
        have h4 : i' = 4 := by simp at h2; omega
        subst h4
        decide)⟩

end json

/-! ## The output proxy of the zap adapter -/

namespace zap

/-- C4: on a proxy whose sink was never set (the proxy `NewZapLogger` makes) or
was set to nil, `Write(p)` returns 0 bytes and no error, the proxy is left as
it was and nothing is delivered to any sink. -/
theorem C4_write_without_sink (logcfg : Config) (engine : Nat) (w : proxyWriter)
    (p : List Byte) (t : Trace) :
    (NewZapLogger logcfg engine).logger.outputWriter.Write p t
      = ({ n := 0, err := none }, (NewZapLogger logcfg engine).logger.outputWriter, t) ∧
    (NewZapLogger logcfg engine).logger.GetOutput.isNone = true ∧
    (w.SetWriter none).Write p t = ({ n := 0, err := none }, w.SetWriter none, t) ∧
    (({ internal := engine, outputWriter := w } : zapLogger).SetOutput none).outputWriter.Write p t
      = ({ n := 0, err := none }, w.SetWriter none, t) :=
  ⟨rfl, rfl, rfl, rfl⟩

/-- C5: after `SetOutput(A)` a `Write(p)` on the proxy returns the result of
`A.Write(p)` and delivers `p` to `A` once; after a following `SetOutput(B)`,
with `B` another sink than `A`, a `Write(q)` returns the result of `B.Write(q)`,
delivers `q` to `B` once and nothing to `A`. Each `Write` leaves the proxy as it
was, so this holds for every later `Write`. -/
theorem C5_last_writer_wins (z : zapLogger) (A B : Writer) (p q : List Byte) (t t' : Trace)
    (hAB : A.id ≠ B.id) :
    (z.SetOutput (some A)).outputWriter.Write p t
      = (A.Write p, (z.SetOutput (some A)).outputWriter, t ++ [(A.id, Payload.bytes p)]) ∧
    deliveredTo ((z.SetOutput (some A)).outputWriter.Write p t).2.2 A.id
      = deliveredTo t A.id ++ [Payload.bytes p] ∧
    ((z.SetOutput (some A)).SetOutput (some B)).outputWriter.Write q t'
      = (B.Write q, ((z.SetOutput (some A)).SetOutput (some B)).outputWriter,
          t' ++ [(B.id, Payload.bytes q)]) ∧
    deliveredTo (((z.SetOutput (some A)).SetOutput (some B)).outputWriter.Write q t').2.2 B.id
      = deliveredTo t' B.id ++ [Payload.bytes q] ∧
    deliveredTo (((z.SetOutput (some A)).SetOutput (some B)).outputWriter.Write q t').2.2 A.id
      = deliveredTo t' A.id := by
  have hBA : ¬ B.id = A.id := fun e => hAB e.symm
  refine ⟨rfl, ?_, rfl, ?_, ?_⟩
  · simp [zapLogger.SetOutput, proxyWriter.SetWriter, proxyWriter.Write, deliveredTo]
  · simp [zapLogger.SetOutput, proxyWriter.SetWriter, proxyWriter.Write, deliveredTo]
  · simp [zapLogger.SetOutput, proxyWriter.SetWriter, proxyWriter.Write, deliveredTo, hBA]

/-- C5 with sink 7 set first and sink 8 set after it: a write of the bytes
`1, 2` after the second `SetOutput` reaches sink 8 once and never sink 7. -/
theorem C5_last_writer_wins_witness :
    deliveredTo
        ((((NewZapLogger { Encoding := "json", InitialFields := [] } 0).logger.SetOutput
            (some { id := 7, Write := fun p => { n := p.length, err := none } })).SetOutput
            (some { id := 8, Write := fun _ => { n := 0, err := some "closed" } })
          ).outputWriter.Write [1, 2] []).2.2 8
      = deliveredTo [] 8 ++ [Payload.bytes [1, 2]] ∧
    deliveredTo
        ((((NewZapLogger { Encoding := "json", InitialFields := [] } 0).logger.SetOutput
            (some { id := 7, Write := fun p => { n := p.length, err := none } })).SetOutput
            (some { id := 8, Write := fun _ => { n := 0, err := some "closed" } })
          ).outputWriter.Write [1, 2] []).2.2 7
      = deliveredTo [] 7 :=
  (C5_last_writer_wins (NewZapLogger { Encoding := "json", InitialFields := [] } 0).logger
    { id := 7, Write := fun p => { n := p.length, err := none } }
    { id := 8, Write := fun _ => { n := 0, err := some "closed" } }
    [] [1, 2] [] [] (by decide)).2.2.2

end zap

/-! ## Level control of the logrus adapter -/

namespace json

theorem levelOf_SetLevel (a : Nat) (l : Level) (h : Heap) (ha : a < h.engines.length) :
    levelOf (SetLevel a l h) a = some l := by
  have e : h.engines[a]? = some h.engines[a] := List.getElem?_eq_getElem ha
  simp [SetLevel, levelOf, e, List.getElem?_set, ha]

/-- C6: `SetLogLevel(s)` on a `jsonLogger` whose engine exists sets the level of
that engine to the level that the lower-cased `s` names among `debug`, `info`,
`warn`, `error`, `fatal`, and leaves the memory as it was when the lower-cased
`s` is none of the five; two strings with the same lower-cased form act alike
(so `WARN` and `Warn` act as `warn`), and after `SetLogLevel("warn")` a
`SetLogLevel("bogus")` leaves the level at warn. -/
theorem C6_set_log_level (unicodeToLower : Char → Char) (j : jsonLogger) (s : String)
    (h : Heap) (hj : j.internal < h.engines.length) :
    (∀ nl ∈ [("debug", Level.DebugLevel), ("info", Level.InfoLevel),
              ("warn", Level.WarnLevel), ("error", Level.ErrorLevel),
              ("fatal", Level.FatalLevel)],
        ToLower unicodeToLower s = nl.1 →
          j.SetLogLevel unicodeToLower s h = SetLevel j.internal nl.2 h ∧
          levelOf (j.SetLogLevel unicodeToLower s h) j.internal = some nl.2) ∧
    (ToLower unicodeToLower s ∉ ["debug", "info", "warn", "error", "fatal"] →
        j.SetLogLevel unicodeToLower s h = h) ∧
    (∀ s' : String, ToLower unicodeToLower s' = ToLower unicodeToLower s →
        j.SetLogLevel unicodeToLower s' h = j.SetLogLevel unicodeToLower s h) ∧
    j.SetLogLevel unicodeToLower "WARN" h = j.SetLogLevel unicodeToLower "warn" h ∧
    j.SetLogLevel unicodeToLower "Warn" h = j.SetLogLevel unicodeToLower "warn" h ∧
    j.SetLogLevel unicodeToLower "bogus" (j.SetLogLevel unicodeToLower "warn" h)
      = j.SetLogLevel unicodeToLower "warn" h ∧
    levelOf (j.SetLogLevel unicodeToLower "bogus" (j.SetLogLevel unicodeToLower "warn" h))
        j.internal = some Level.WarnLevel := by
  have hwarn : ToLower unicodeToLower "warn" = "warn" := rfl
  have hWARN : ToLower unicodeToLower "WARN" = "warn" := rfl
  have hWarn : ToLower unicodeToLower "Warn" = "warn" := rfl
  have hbogus : ToLower unicodeToLower "bogus" = "bogus" := rfl
  have hset : j.SetLogLevel unicodeToLower "warn" h = SetLevel j.internal Level.WarnLevel h := by
    simp [jsonLogger.SetLogLevel, hwarn]
  refine ⟨?_, ?_, ?_, ?_, ?_, ?_, ?_⟩
  · intro nl hnl hs
    simp only [List.mem_cons, List.mem_singleton, List.mem_nil_iff, or_false] at hnl
    have key : j.SetLogLevel unicodeToLower s h = SetLevel j.internal nl.2 h := by
      rcases hnl with e | e | e | e | e <;> subst e <;>
        simp [jsonLogger.SetLogLevel, hs]
    exact ⟨key, by rw [key]; exact levelOf_SetLevel _ _ _ hj⟩
  · intro hs
    simp only [List.mem_cons, List.mem_singleton, List.mem_nil_iff, or_false, not_or] at hs
    simp [jsonLogger.SetLogLevel, hs]
  · intro s' hs'
    simp [jsonLogger.SetLogLevel, hs']
  · simp [jsonLogger.SetLogLevel, hwarn, hWARN]
  · simp [jsonLogger.SetLogLevel, hwarn, hWarn]
  · simp [jsonLogger.SetLogLevel, hbogus]
  · have e : j.SetLogLevel unicodeToLower "bogus" (j.SetLogLevel unicodeToLower "warn" h)
        = j.SetLogLevel unicodeToLower "warn" h := by
      simp [jsonLogger.SetLogLevel, hbogus]
    rw [e, hset]
    exact levelOf_SetLevel _ _ _ hj

/-- C6 on a memory with one engine at level info: after `SetLogLevel("warn")`
and then `SetLogLevel("bogus")` the engine is at level warn. -/
theorem C6_set_log_level_witness :
    levelOf
        (jsonLogger.SetLogLevel id { internal := 0, prog := "APP", context := "cli" } "bogus"
          (jsonLogger.SetLogLevel id { internal := 0, prog := "APP", context := "cli" } "warn"
            { engines := [{ Out := 1, Formatter := Formatter.JSONFormatter,
                            Level := Level.InfoLevel }],
              loggers := [LoggerObj.json { internal := 0, prog := "APP", context := "cli" }],
              global := some 0 }))
        0 = some Level.WarnLevel :=
  (C6_set_log_level id { internal := 0, prog := "APP", context := "cli" } "WARN"
    { engines := [{ Out := 1, Formatter := Formatter.JSONFormatter, Level := Level.InfoLevel }],
      loggers := [LoggerObj.json { internal := 0, prog := "APP", context := "cli" }],
      global := some 0 } (by decide)).2.2.2.2.2.2

/-! ## Reuse of an existing logger by `NewJSONLogger` -/

theorem NewJSONLogger_existing (prog name : String) (e : Nat) (j : jsonLogger) (h : Heap)
    (he : h.loggers[e]? = some (LoggerObj.json j)) :
    NewJSONLogger prog name (some e) h =
      (e, { engines := h.engines,
            loggers := h.loggers.set e (LoggerObj.json
              { internal := j.internal, prog := if prog = "" then "APP" else prog,
                context := if name = "" then "cli" else name }),
            global := h.global }) := by
  have hlt : e < h.loggers.length := by
    rcases Nat.lt_or_ge e h.loggers.length with hl | hl
    · exact hl
    · rw [List.getElem?_eq_none hl] at he
      cases he
  simp [NewJSONLogger, LoggerSetName, LoggerSetProg, he, List.getElem?_set, hlt,
    jsonLogger.SetName, jsonLogger.SetProg, defaultProg, startName]

/-- C9: `NewJSONLogger(prog, name, e)` with `e` an existing `jsonLogger` returns
`e` itself; afterwards `e` has the engine handle it had, the program label
`prog` (`APP` for an empty `prog`) and the context name `name` (`cli` for an
empty `name`); no engine is created or changed, the variable `global` and every
other logger object are as before. A second call on the same `e` returns `e`
again, with the same engine handle and the labels of the second call. -/
theorem C9_existing_logger_reused (prog name prog2 name2 : String) (e : Nat) (j : jsonLogger)
    (h : Heap) (he : h.loggers[e]? = some (LoggerObj.json j)) :
    (NewJSONLogger prog name (some e) h).1 = e ∧
    (NewJSONLogger prog name (some e) h).2.loggers[e]? =
      some (LoggerObj.json { internal := j.internal,
                             prog := if prog = "" then "APP" else prog,
                             context := if name = "" then "cli" else name }) ∧
    (NewJSONLogger prog name (some e) h).2.engines = h.engines ∧
    (NewJSONLogger prog name (some e) h).2.global = h.global ∧
    (NewJSONLogger prog name (some e) h).2.loggers.length = h.loggers.length ∧
    (∀ a : Nat, a ≠ e → (NewJSONLogger prog name (some e) h).2.loggers[a]? = h.loggers[a]?) ∧
    (NewJSONLogger prog2 name2 (some e) (NewJSONLogger prog name (some e) h).2).1 = e ∧
    (NewJSONLogger prog2 name2 (some e) (NewJSONLogger prog name (some e) h).2).2.loggers[e]? =
      some (LoggerObj.json { internal := j.internal,
                             prog := if prog2 = "" then "APP" else prog2,
                             context := if name2 = "" then "cli" else name2 }) ∧
    (NewJSONLogger prog2 name2 (some e) (NewJSONLogger prog name (some e) h).2).2.engines
      = h.engines ∧
    (NewJSONLogger prog2 name2 (some e) (NewJSONLogger prog name (some e) h).2).2.global
      = h.global := by
  have hlt : e < h.loggers.length := by
    rcases Nat.lt_or_ge e h.loggers.length with hl | hl
    · exact hl
    · rw [List.getElem?_eq_none hl] at he
      cases he
  have h1 := NewJSONLogger_existing prog name e j h he
  have he2 : (NewJSONLogger prog name (some e) h).2.loggers[e]? =
      some (LoggerObj.json { internal := j.internal,
                             prog := if prog = "" then "APP" else prog,
                             context := if name = "" then "cli" else name }) := by
    rw [h1]
    simp [List.getElem?_set, hlt]
  have h2 := NewJSONLogger_existing prog2 name2 e _ _ he2
  refine ⟨by rw [h1], he2, by rw [h1], by rw [h1], by rw [h1]; simp, ?_, by rw [h2], ?_,
    by rw [h2, h1], by rw [h2, h1]⟩
  · intro a ha
    rw [h1]
    simp [List.getElem?_set, Ne.symm ha]
  · rw [h2]
    have hlt2 : e < (NewJSONLogger prog name (some e) h).2.loggers.length := by
      rw [h1]; simpa using hlt
    simp [List.getElem?_set, hlt2]

/-- C9 on a memory whose logger 0 is a `jsonLogger` on engine 0: a call with an
empty program label and the name `db`, then a call with the label `svc` and an
empty name, both return logger 0, still on engine 0, now labelled `svc`/`cli`;
the engines and `global` are untouched. -/
theorem C9_existing_logger_reused_witness :
    (NewJSONLogger "" "db" (some 0)
        { engines := [{ Out := 1, Formatter := Formatter.JSONFormatter,
                        Level := Level.InfoLevel }],
          loggers := [LoggerObj.json { internal := 0, prog := "APP", context := "cli" }],
          global := some 0 }).1 = 0 ∧
    (NewJSONLogger "svc" "" (some 0)
        (NewJSONLogger "" "db" (some 0)
          { engines := [{ Out := 1, Formatter := Formatter.JSONFormatter,
                          Level := Level.InfoLevel }],
            loggers := [LoggerObj.json { internal := 0, prog := "APP", context := "cli" }],
            global := some 0 }).2).2
      = { engines := [{ Out := 1, Formatter := Formatter.JSONFormatter,
                        Level := Level.InfoLevel }],
          loggers := [LoggerObj.json { internal := 0, prog := "svc", context := "cli" }],
          global := some 0 } :=
  ⟨(C9_existing_logger_reused "" "db" "svc" "" 0
      { internal := 0, prog := "APP", context := "cli" }
      { engines := [{ Out := 1, Formatter := Formatter.JSONFormatter,
                      Level := Level.InfoLevel }],
        loggers := [LoggerObj.json { internal := 0, prog := "APP", context := "cli" }],
        global := some 0 } rfl).1, by decide⟩

end json

/-! ## Argument cleaning and raw output of the zap adapter -/

namespace zap

/-- C7 fails on the code for every method but `Debugw`: `Info(42)` forwards the
two arguments `42, Clean("")` to the engine, and `Infow("m", "k", 42)` the three
arguments `Clean("k"), 42, Clean("")`, where the claim has `42` and
`Clean("k"), 42`; `Debugw("m", "k", 42)` forwards `Clean("k"), 42`. -/
theorem C7_non_string_gains_empty_string (Clean : String → Bool → String) (z : zapLogger) :
    (z.Info Clean [Value.int 42]).args = [Value.int 42, Value.str (Clean "" false)] ∧
    (z.Info Clean [Value.int 42]).args.length = 2 ∧
    (z.Infow Clean "m" [Value.str "k", Value.int 42]).args
      = [Value.str (Clean "k" false), Value.int 42, Value.str (Clean "" false)] ∧
    (z.Debugw Clean "m" [Value.str "k", Value.int 42]).args
      = [Value.str (Clean "k" false), Value.int 42] :=
  ⟨rfl, rfl, rfl, rfl⟩

/-- C8, as stated, fails: with sink 7 set by `SetOutput`, `Raw("x")` delivers
its text to standard output (sink 1) and nothing to sink 7; with no sink set,
the text of `Raw("x")` is not dropped but delivered to standard output. -/
theorem C8_raw_bypasses_proxy_counterexample :
    zapLogger.Raw (fun s _ => s)
        ((NewZapLogger { Encoding := "json", InitialFields := [] } 0).logger.SetOutput
          (some { id := 7, Write := fun p => { n := p.length, err := none } }))
        [Value.str "x"] []
      = [(1, Payload.Fprint [Value.str "x"])] ∧
    deliveredTo
        (zapLogger.Raw (fun s _ => s)
          ((NewZapLogger { Encoding := "json", InitialFields := [] } 0).logger.SetOutput
            (some { id := 7, Write := fun p => { n := p.length, err := none } }))
          [Value.str "x"] []) 7
      = [] ∧
    zapLogger.Raw (fun s _ => s)
        (NewZapLogger { Encoding := "json", InitialFields := [] } 0).logger [Value.str "x"] []
      ≠ [] := by
  decide

/-- C8, amended: whatever sink `SetOutput` has set on the adapter, or none,
`Raw`, `Rawf` and `Rawln` each make exactly one delivery, the text `fmt` renders
for the cleaned arguments, and make it to `os.Stdout`; a sink other than
standard output receives nothing from them, and the proxy is not written to. -/
theorem C8_raw_writes_to_stdout (Clean : String → Bool → String) (z : zapLogger)
    (w : Option Writer) (format : String) (args : List Value) (t : Trace) :
    (z.SetOutput w).Raw Clean args t
      = t ++ [(osStdout.id, Payload.Fprint (stripArgs Clean args))] ∧
    (z.SetOutput w).Rawf Clean format args t
      = t ++ [(osStdout.id, Payload.Fprintf format (stripArgs Clean args))] ∧
    (z.SetOutput w).Rawln Clean args t
      = t ++ [(osStdout.id, Payload.Fprintln (stripArgs Clean args))] ∧
    z.Raw Clean args t = (z.SetOutput w).Raw Clean args t ∧
    z.Rawf Clean format args t = (z.SetOutput w).Rawf Clean format args t ∧
    z.Rawln Clean args t = (z.SetOutput w).Rawln Clean args t ∧
    (∀ id : Nat, id ≠ osStdout.id →
      deliveredTo ((z.SetOutput w).Raw Clean args t) id = deliveredTo t id ∧
      deliveredTo ((z.SetOutput w).Rawf Clean format args t) id = deliveredTo t id ∧
      deliveredTo ((z.SetOutput w).Rawln Clean args t) id = deliveredTo t id) := by
  refine ⟨rfl, rfl, rfl, rfl, rfl, rfl, ?_⟩
  intro id hid
  have h : ¬ osStdout.id = id := fun e => hid e.symm
  simp [zapLogger.Raw, zapLogger.Rawf, zapLogger.Rawln, deliveredTo, h]

/-- C8, amended, with sink 7 set: `Rawln("x")` leaves sink 7 without any
delivery. -/
theorem C8_raw_writes_to_stdout_witness :
    deliveredTo
        (zapLogger.Rawln (fun s _ => s)
          ((NewZapLogger { Encoding := "json", InitialFields := [] } 0).logger.SetOutput
            (some { id := 7, Write := fun p => { n := p.length, err := none } }))
          [Value.str "x"] []) 7
      = deliveredTo [] 7 :=
  ((C8_raw_writes_to_stdout (fun s _ => s)
      (NewZapLogger { Encoding := "json", InitialFields := [] } 0).logger
      (some { id := 7, Write := fun p => { n := p.length, err := none } })
      "" [Value.str "x"] []).2.2.2.2.2.2 7 (by decide)).2.2

/-! ## The initial fields of the zap adapter -/

theorem sortStrings_perm (l : List String) : (sortStrings l).Perm l :=
  List.perm_insertionSort _ l

theorem sortStrings_sorted (l : List String) :
    (sortStrings l).Sorted (fun a b : String => a ≤ b) := by
  haveI : IsTotal String (fun a b => a.data ≤ b.data) := ⟨fun a b => le_total a.data b.data⟩
  haveI : IsTrans String (fun a b => a.data ≤ b.data) :=
    ⟨fun _ _ _ h1 h2 => le_trans h1 h2⟩
  have h : (sortStrings l).Sorted (fun a b => a.data ≤ b.data) :=
    List.sorted_insertionSort _ l
  exact List.Pairwise.imp (fun {a b} hab => String.le_iff_toList_le.mpr hab) h

theorem sortStrings_eq_of_perm (l l' : List String) (h : l.Perm l') :
    sortStrings l = sortStrings l' :=
  List.eq_of_perm_of_sorted
    (((sortStrings_perm l).trans h).trans (sortStrings_perm l').symm)
    (sortStrings_sorted l) (sortStrings_sorted l')

theorem foldl_append_key (m : GoMap) :
    ∀ acc : List String, m.foldl (fun keys kv => keys ++ [kv.1]) acc = acc ++ mapKeys m := by
  induction m with
  | nil => intro acc; simp [mapKeys]
  | cons kv rest ih =>
    intro acc
    simp only [List.foldl_cons, ih, mapKeys, List.map_cons, List.append_assoc,
      List.singleton_append]

theorem foldl_set_enumFrom (f : String → Field) (d : Field) (keys : List String) :
    ∀ pre : List Field,
      (keys.enumFrom pre.length).foldl (fun fs ik => fs.set ik.1 (f ik.2))
          (pre ++ List.replicate keys.length d)
        = pre ++ keys.map f := by
  induction keys with
  | nil => intro pre; simp
  | cons k keys ih =>
    intro pre
    have e : (pre ++ List.replicate (k :: keys).length d).set pre.length (f k)
        = (pre ++ [f k]) ++ List.replicate keys.length d := by
      rw [List.set_append_right _ _ (Nat.le_refl _)]
      simp [List.replicate_succ]
    have ih' := ih (pre ++ [f k])
    simp only [List.length_append, List.length_singleton] at ih'
    rw [List.enumFrom_cons, List.foldl_cons, e, ih']
    simp

theorem makeZapFields_eq (m : GoMap) :
    makeZapFields m
      = (sortStrings (mapKeys m)).map
          (fun k => ({ Key := k, Interface := mapIndex m k } : Field)) := by
  have hlen : m.length = (sortStrings (mapKeys m)).length := by
    rw [(sortStrings_perm (mapKeys m)).length_eq]
    simp [mapKeys]
  have h := foldl_set_enumFrom (fun k => ({ Key := k, Interface := mapIndex m k } : Field))
    { Key := "", Interface := Value.nil } (sortStrings (mapKeys m)) []
  simp only [List.length_nil, List.nil_append] at h
  simp only [makeZapFields, foldl_append_key, List.nil_append, List.enum, hlen]
  exact h

theorem mapGet_eq_some_iff (m : GoMap) (hm : (mapKeys m).Nodup) (k : String) (v : Value) :
    mapGet m k = some v ↔ (k, v) ∈ m := by
  induction m with
  | nil => simp [mapGet]
  | cons kv rest ih =>
    obtain ⟨a, b⟩ := kv
    simp only [mapKeys, List.map_cons, List.nodup_cons] at hm
    have ih' := ih hm.2
    by_cases h : a = k
    · subst h
      have hnot : (a, v) ∉ rest := fun hmem => hm.1 (List.mem_map_of_mem Prod.fst hmem)
      simp only [mapGet, if_true, Option.some.injEq, List.mem_cons, Prod.mk.injEq, true_and]
      constructor
      · intro e; exact Or.inl e.symm
      · rintro (e | e)
        · exact e.symm
        · exact absurd e hnot
    · have h1 : ¬ k = a := fun e => h e.symm
      simp [mapGet, h, h1, ih']

theorem mapGet_perm (m m' : GoMap) (hm : (mapKeys m).Nodup) (h : m'.Perm m) (k : String) :
    mapGet m' k = mapGet m k := by
  have hm' : (mapKeys m').Nodup := ((h.map Prod.fst).nodup_iff).mpr hm
  apply Option.ext
  intro v
  simp only [Option.mem_def]
  rw [mapGet_eq_some_iff m' hm', mapGet_eq_some_iff m hm]
  exact h.mem_iff

/-- C10: for a map `m` (its keys pairwise different), `makeZapFields(m)` has
`len(m)` fields, their keys are the keys of `m` in strictly ascending string
order, each field carries the value `m` has for its key, and a map with the
same entries visited in another order gives the same list. -/
theorem C10_makeZapFields_sorted (m : GoMap) (hm : (mapKeys m).Nodup) :
    (makeZapFields m).length = m.length ∧
    ((makeZapFields m).map Field.Key).Sorted (fun a b : String => a < b) ∧
    ((makeZapFields m).map Field.Key).Perm (mapKeys m) ∧
    (∀ f ∈ makeZapFields m, mapGet m f.Key = some f.Interface) ∧
    (∀ m' : GoMap, m'.Perm m → makeZapFields m' = makeZapFields m) := by
  have hkeys : (makeZapFields m).map Field.Key = sortStrings (mapKeys m) := by
    rw [makeZapFields_eq, List.map_map]
    exact List.map_id _
  refine ⟨?_, ?_, ?_, ?_, ?_⟩
  · rw [makeZapFields_eq, List.length_map, (sortStrings_perm _).length_eq]
    simp [mapKeys]
  · rw [hkeys]
    exact (sortStrings_sorted _).lt_of_le (((sortStrings_perm _).nodup_iff).mpr hm)
  · rw [hkeys]
    exact sortStrings_perm _
  · intro f hf
    rw [makeZapFields_eq, List.mem_map] at hf
    obtain ⟨k, hk, rfl⟩ := hf
    have hk' : k ∈ mapKeys m := (sortStrings_perm _).mem_iff.mp hk
    have hsome := (mapGet_isSome_iff m k).mpr hk'
    obtain ⟨v, hv⟩ := Option.isSome_iff_exists.mp hsome
    simp [mapIndex, hv]
  · intro m' hperm
    have hsort : sortStrings (mapKeys m') = sortStrings (mapKeys m) :=
      sortStrings_eq_of_perm _ _ (hperm.map Prod.fst)
    rw [makeZapFields_eq, makeZapFields_eq, hsort]
    apply List.map_congr_left
    intro k _
    simp [mapIndex, mapGet_perm m m' hm hperm k]

/-- C10 on the map with the entries `b ↦ 1`, `a ↦ nil`, `c ↦ "x"`, visited in
this order: the fields come out under the keys `a`, `b`, `c`. -/
theorem C10_makeZapFields_sorted_witness :
    (makeZapFields [("b", Value.int 1), ("a", Value.nil), ("c", Value.str "x")]).length = 3 ∧
    ((makeZapFields [("b", Value.int 1), ("a", Value.nil), ("c", Value.str "x")]).map
      Field.Key).Sorted (fun a b : String => a < b) ∧
    makeZapFields [("b", Value.int 1), ("a", Value.nil), ("c", Value.str "x")]
      = [{ Key := "a", Interface := Value.nil }, { Key := "b", Interface := Value.int 1 },
         { Key := "c", Interface := Value.str "x" }] :=
  ⟨(C10_makeZapFields_sorted [("b", Value.int 1), ("a", Value.nil), ("c", Value.str "x")]
      (by decide)).1,
   (C10_makeZapFields_sorted [("b", Value.int 1), ("a", Value.nil), ("c", Value.str "x")]
      (by decide)).2.1,
   by decide⟩

/-! ## The two cleaning loops compared -/

theorem foldl_stripStepContinue_length (Clean : String → Bool → String) (args : List Value) :
    ∀ acc : List Value,
      (args.foldl (stripStepContinue Clean) acc).length = acc.length + args.length := by
  induction args with
  | nil => intro acc; simp
  | cons x rest ih =>
    intro acc
    rw [List.foldl_cons, ih]
    cases x <;> simp [stripStepContinue, assertString] <;> omega

theorem foldl_stripStep_length (Clean : String → Bool → String) (args : List Value) :
    ∀ acc : List Value,
      (args.foldl (stripStep Clean) acc).length
        = acc.length + args.length + (args.filter (fun x => !(assertString x).2)).length := by
  induction args with
  | nil => intro acc; simp
  | cons x rest ih =>
    intro acc
    rw [List.foldl_cons, ih]
    cases x <;> simp [stripStep, assertString] <;> omega

theorem foldl_stripStep_eq_of_strings (Clean : String → Bool → String) (args : List Value)
    (hall : ∀ x ∈ args, (assertString x).2 = true) :
    ∀ acc : List Value,
      args.foldl (stripStep Clean) acc = args.foldl (stripStepContinue Clean) acc := by
  induction args with
  | nil => intro acc; rfl
  | cons x rest ih =>
    intro acc
    have hx : (assertString x).2 = true := hall x (List.mem_cons_self _ _)
    have hrest : ∀ y ∈ rest, (assertString y).2 = true :=
      fun y hy => hall y (List.mem_cons_of_mem _ hy)
    have hstep : stripStep Clean acc x = stripStepContinue Clean acc x := by
      cases x <;> simp [assertString] at hx
      simp [stripStep, stripStepContinue, assertString]
    rw [List.foldl_cons, List.foldl_cons, hstep, ih hrest]

theorem stripArgs_eq_iff (Clean : String → Bool → String) (args : List Value) :
    stripArgsContinue Clean args = stripArgs Clean args ↔
      ∀ x ∈ args, (assertString x).2 = true := by
  constructor
  · intro h
    have hlen := congrArg List.length h
    rw [stripArgsContinue, stripArgs, foldl_stripStepContinue_length,
      foldl_stripStep_length] at hlen
    have hzero : (args.filter (fun x => !(assertString x).2)).length = 0 := by omega
    have hnil := List.length_eq_zero.mp hzero
    intro x hx
    have hnot : x ∉ args.filter (fun x => !(assertString x).2) := by
      rw [hnil]; exact List.not_mem_nil x
    by_contra hfalse
    exact hnot (List.mem_filter.mpr ⟨hx, by simpa using hfalse⟩)
  · intro hall
    exact (foldl_stripStep_eq_of_strings Clean args hall []).symm

/-- C11 fails on the code: `Printw`, `Infow`, `Warnw`, `Errorw` and `Fatalw`
forward one and the same list, but the list `Debugw` forwards equals it only
when every argument is a string. For `"k", 42` `Debugw` forwards
`Clean("k"), 42` and `Infow` forwards `Clean("k"), 42, Clean("")`, one element
more. -/
theorem C11_debugw_differs_from_infow (Clean : String → Bool → String) (z : zapLogger)
    (body : String) (args : List Value) :
    (z.Printw Clean body args).args = (z.Infow Clean body args).args ∧
    (z.Warnw Clean body args).args = (z.Infow Clean body args).args ∧
    (z.Errorw Clean body args).args = (z.Infow Clean body args).args ∧
    (z.Fatalw Clean body args).args = (z.Infow Clean body args).args ∧
    ((z.Debugw Clean body args).args = (z.Infow Clean body args).args ↔
      ∀ x ∈ args, (assertString x).2 = true) ∧
    (z.Debugw Clean body args).args.length = args.length ∧
    (z.Infow Clean body args).args.length
      = args.length + (args.filter (fun x => !(assertString x).2)).length ∧
    (z.Debugw Clean body [Value.str "k", Value.int 42]).args
      = [Value.str (Clean "k" false), Value.int 42] ∧
    (z.Infow Clean body [Value.str "k", Value.int 42]).args
      = [Value.str (Clean "k" false), Value.int 42, Value.str (Clean "" false)] ∧
    (z.Debugw Clean body [Value.str "k", Value.int 42]).args
      ≠ (z.Infow Clean body [Value.str "k", Value.int 42]).args := by
  refine ⟨rfl, rfl, rfl, rfl, stripArgs_eq_iff Clean args, ?_, ?_, rfl, rfl, ?_⟩
  · have h := foldl_stripStepContinue_length Clean args []
    simpa [zapLogger.Debugw, stripArgsContinue] using h
  · have h := foldl_stripStep_length Clean args []
    simpa [zapLogger.Infow, stripArgs] using h
  · intro h
    have hlen := congrArg List.length h
    simp [zapLogger.Debugw, zapLogger.Infow, stripArgs, stripArgsContinue, stripStep,
      stripStepContinue, assertString] at hlen

end zap

end Genolog
